import Mathlib

/-!
Verification of the monadio library (TypeScript) against its specification.

This file gives a shallow embedding of the runtime behaviour of the
library's data types and operations:

* `JsVal` models a JavaScript value slot that can hold a proper value,
  `null`, or `undefined`; `Maybe` (src/lib/maybe.ts, src/src/maybe.ts)
  stores such a slot.
* `Result` models src/lib/result.ts's tagged union `{data} | {error}`.
* `NarrowSwitch` models src/lib/narrow/narrow-switch.ts's runtime state
  machine, and `NarrowSwitchTy` models its compile-time residual-union
  computation (`Exclude` / `IsNever`).
* `NarrowDiscriminate` models src/src/narrow/narrow-discriminate.ts.
* Throwing methods are embedded as `Except`-valued functions whose error
  type is the thrown error class (src/lib/errors.ts).
* For claims about which user-supplied callbacks are invoked, `*Traced`
  variants of the operations thread an explicit call log; they mirror the
  source code's evaluation order statement by statement.
-/

/-! ## src/lib/_util.ts and src/src/_util.ts

`ValueOrFnOnce<T> = T | (() => T)` and `ValueOrMapper<T,U> = U | ((v: T) => U)`
are discriminated at runtime by `typeof x === "function"`; the inductives
below record that runtime discrimination in their constructors.  -/

inductive ValueOrFnOnce (α : Type) where
  | value : α → ValueOrFnOnce α
  | fnOnce : (Unit → α) → ValueOrFnOnce α

/-- Embeds `applyValueOrFnOnce` from src/lib/_util.ts (same code in src/src/_util.ts):
`typeof v === "function" ? v() : v`. -/
def applyValueOrFnOnce {α : Type} : ValueOrFnOnce α → α
  | .value v => v
  | .fnOnce g => g ()

inductive ValueOrMapper (α β : Type) where
  | value : β → ValueOrMapper α β
  | mapper : (α → β) → ValueOrMapper α β

/-- Embeds `applyValueOrMapper` from src/lib/_util.ts:
`typeof vm === "function" ? vm(value) : vm`. -/
def applyValueOrMapper {α β : Type} : ValueOrMapper α β → α → β
  | .value u, _ => u
  | .mapper f, v => f v

/-! ## src/lib/errors.ts -/

/-- Embeds `MissingValueError` (src/lib/errors.ts lines 1-5).  Its constructor
takes no arguments: the class carries only the fixed message
`"Unwrapped a Maybe with no value"` inherited from `Error`, and no
`value` field. -/
structure MissingValueError where
  message : String
  deriving DecidableEq

/-- The one value `new MissingValueError()` can produce. -/
def MissingValueError.make : MissingValueError :=
  ⟨"Unwrapped a Maybe with no value"⟩

/-- Embeds `NarrowError` (src/lib/errors.ts lines 7-13): stores the value that
failed to narrow in its `value` field.  The interpolated human-readable
`message` string is not modelled. -/
structure NarrowError (α : Type) where
  value : α

/-- Embeds `AssertFailedError` (src/lib/errors.ts lines 15-21): stores the value
that failed the assertion in its `value` field. -/
structure AssertFailedError (α : Type) where
  value : α

/-- Embeds `ResultUnwrapErrError` (src/lib/errors.ts lines 23-29): stores the Ok
data on which `unwrapErrUnsafe` was called in its `value` field. -/
structure ResultUnwrapErrError (α : Type) where
  value : α

/-! ## Maybe (src/src/maybe.ts; the same class, with the unsafe accessor
named `unwrapUnsafe`, is src/lib/maybe.ts).

`RawMaybe<T> = T | null | undefined` is modelled by `JsVal`. -/

inductive JsVal (α : Type) where
  | val : α → JsVal α
  | null : JsVal α
  | undef : JsVal α

/-- JavaScript loose equality `x == null`: true for both `null` and
`undefined`. -/
def JsVal.looseNull {α : Type} : JsVal α → Bool
  | .val _ => false
  | .null => true
  | .undef => true

/-- JavaScript strict equality `x === null`. -/
def JsVal.strictNull {α : Type} : JsVal α → Bool
  | .null => true
  | _ => false

/-- JavaScript `x ?? null` (nullish coalescing, as used by the Maybe
constructor): maps `undefined` to `null` and keeps everything else. -/
def JsVal.coalesceNull {α : Type} : JsVal α → JsVal α
  | .val a => .val a
  | .null => .null
  | .undef => .null

/-- The `Maybe` class.  The TS field is declared `T | null`, but the
runtime slot could in principle hold `undefined` were it not for the
constructor's normalisation; the slot is therefore modelled as `JsVal`
so that the "never `undefined` internally" invariant is expressible. -/
structure Maybe (α : Type) where
  value : JsVal α

/-- The private constructor `constructor(value) { this.value = value ?? null }`
(src/src/maybe.ts lines 10-12). -/
def Maybe.mkNorm {α : Type} (v : JsVal α) : Maybe α :=
  ⟨v.coalesceNull⟩

/-- Embeds `Maybe.None()` : wraps `null`. -/
def Maybe.None {α : Type} : Maybe α :=
  Maybe.mkNorm .null

/-- Embeds `Maybe.Some(value)` : wraps the given (non-nullish) value. -/
def Maybe.Some {α : Type} (x : α) : Maybe α :=
  Maybe.mkNorm (.val x)

/-- Argument of `Maybe.from`: `RawMaybe<T> | Maybe<T>`, discriminated at
runtime by `value instanceof Maybe`. -/
inductive Maybe.FromArg (α : Type) where
  | raw : JsVal α → Maybe.FromArg α
  | inst : Maybe α → Maybe.FromArg α

/-- Embeds `Maybe.from(value)` (source name `from`, a Lean keyword):
`value instanceof Maybe ? value : new Maybe(value)`. -/
def Maybe.fromArg {α : Type} : Maybe.FromArg α → Maybe α
  | .inst m => m
  | .raw v => Maybe.mkNorm v

/-- Embeds `Maybe.try(wrappedFn)` (source name `try`, a Lean keyword):
returns `Maybe.from(wrappedFn())`, or `Maybe.None()` if `wrappedFn`
throws.  The wrapped function is modelled as `Except`-valued, `ε` being
the type of whatever it may throw. -/
def Maybe.tryFn {α ε : Type} (wrappedFn : Unit → Except ε (Maybe.FromArg α)) : Maybe α :=
  match wrappedFn () with
  | .ok v => Maybe.fromArg v
  | .error _ => Maybe.None

/-- Embeds `maybe.andThen(nextMaybe)` (src/src/maybe.ts lines 91-95):
`this.value == null ? Maybe.None() : Maybe.from(nextMaybe(this.value))`. -/
def Maybe.andThen {α β : Type} (m : Maybe α) (nextMaybe : α → Maybe.FromArg β) : Maybe β :=
  match m.value with
  | .val a => Maybe.fromArg (nextMaybe a)
  | .null => Maybe.None
  | .undef => Maybe.None

/-- Embeds `maybe.narrow(narrowFn)` (src/src/maybe.ts lines 40-44):
`this.andThen(v => narrowFn(v) ? Maybe.Some(v) : Maybe.None())`. -/
def Maybe.narrow {α : Type} (m : Maybe α) (narrowFn : α → Bool) : Maybe α :=
  m.andThen fun v => .inst (if narrowFn v then Maybe.Some v else Maybe.None)

/-- Embeds `Maybe.narrow(value, narrowFn)` (static, src/src/maybe.ts lines 33-38):
`Maybe.from(value).narrow(narrowFn)`. -/
def Maybe.narrowStatic {α : Type} (value : Maybe.FromArg α) (narrowFn : α → Bool) : Maybe α :=
  (Maybe.fromArg value).narrow narrowFn

/-- Embeds `Maybe.combine(...maybes)` (src/src/maybe.ts lines 46-61):
unwraps each argument to its raw slot (`m instanceof Maybe ? m.value : m`),
answers `Maybe.from(null)` if the raws include `null` or `undefined`, and
otherwise wraps the array of raw values.  The all-non-nullish extraction of
`rawValues` into a Lean list is `filterMap`. -/
def Maybe.combine {α : Type} (maybes : List (Maybe.FromArg α)) : Maybe (List α) :=
  let rawValues := maybes.map fun m =>
    match m with
    | .inst m' => m'.value
    | .raw v => v
  if rawValues.any (fun v => v.strictNull) ||
      rawValues.any (fun v => match v with | .undef => true | _ => false) then
    Maybe.fromArg (.raw .null)
  else
    Maybe.fromArg (.raw (.val (rawValues.filterMap fun v =>
      match v with
      | .val a => some a
      | _ => none)))

/-- Embeds `maybe.isSome()` : `this.value !== null`. -/
def Maybe.isSome {α : Type} (m : Maybe α) : Bool :=
  !m.value.strictNull

/-- Embeds `maybe.isNone()` : `this.value === null`. -/
def Maybe.isNone {α : Type} (m : Maybe α) : Bool :=
  m.value.strictNull

/-- Embeds `maybe.map(mapFn)` (src/src/maybe.ts lines 71-73):
`Maybe.from(this.value !== null ? mapFn(this.value) : null)`.
The check is strict, so an (API-unreachable, see the invariant theorem)
`undefined` slot would be passed to `mapFn`; that call is outside the
typed embedding and the branch is modelled by wrapping a raw `undefined`,
which the constructor normalises like the source would normalise
whatever `mapFn` returned. -/
def Maybe.map {α β : Type} (m : Maybe α) (mapFn : α → β) : Maybe β :=
  match m.value with
  | .val a => Maybe.fromArg (.raw (.val (mapFn a)))
  | .null => Maybe.fromArg (.raw .null)
  | .undef => Maybe.fromArg (.raw .undef)

/-- Embeds `maybe.mapOr(defaultValue, mapFn)` (src/src/maybe.ts lines 75-79):
`this.value == null ? applyValueOrFnOnce(defaultValue) : mapFn(this.value)`. -/
def Maybe.mapOr {α β : Type} (m : Maybe α) (defaultValue : ValueOrFnOnce β)
    (mapFn : α → β) : β :=
  match m.value with
  | .val a => mapFn a
  | .null => applyValueOrFnOnce defaultValue
  | .undef => applyValueOrFnOnce defaultValue

/-- Embeds `maybe.orElse(nextMaybe)` (src/src/maybe.ts lines 85-89):
`Maybe.from(this.value == null ? applyValueOrFnOnce(nextMaybe) : this.value)`. -/
def Maybe.orElse {α : Type} (m : Maybe α) (nextMaybe : ValueOrFnOnce (Maybe.FromArg α)) :
    Maybe α :=
  match m.value with
  | .val a => Maybe.fromArg (.raw (.val a))
  | .null => Maybe.fromArg (applyValueOrFnOnce nextMaybe)
  | .undef => Maybe.fromArg (applyValueOrFnOnce nextMaybe)

/-- The unsafe unwrap: named `unwrap()` in src/src/maybe.ts lines 115-118
and `unwrapUnsafe()` in src/lib/maybe.ts (identical body):
`if (this.value == null) throw new MissingValueError(); return this.value`. -/
def Maybe.unwrapUnsafe {α : Type} (m : Maybe α) : Except MissingValueError α :=
  match m.value with
  | .val a => .ok a
  | .null => .error MissingValueError.make
  | .undef => .error MissingValueError.make

/-- Embeds `maybe.unwrapOr(defaultValue)` : `this.value ?? applyValueOrFnOnce(defaultValue)`. -/
def Maybe.unwrapOr {α : Type} (m : Maybe α) (defaultValue : ValueOrFnOnce α) : α :=
  match m.value with
  | .val a => a
  | _ => applyValueOrFnOnce defaultValue

/-- The internal-slot invariant of the spec: the stored value is a proper
value or `null`, never `undefined`. -/
def Maybe.WF {α : Type} (m : Maybe α) : Prop :=
  m.value ≠ JsVal.undef

/-- Lift of `Maybe.WF` to a `from`-style argument (raw slots are fed to
the normalising constructor, so only the `Maybe`-instance branch carries
an obligation). -/
def Maybe.WFArg {α : Type} : Maybe.FromArg α → Prop
  | .raw _ => True
  | .inst m => m.WF

/-! ## Result (src/lib/result.ts; the same class is src/unnamed, the
published lib variant).

The wrapped tagged union `{data: T} | {error: E}` is the inductive
itself; `RawResult` hydration (`Result.from`) re-wraps the same value and
is the identity in a value semantics. -/

inductive Result (α ε : Type) where
  | Ok : α → Result α ε
  | Err : ε → Result α ε
  deriving DecidableEq

/-- Embeds `Result.from(result)` (source name `from`): `new Result(result)`, the
identity on the wrapped value. -/
def Result.fromRaw {α ε : Type} (r : Result α ε) : Result α ε := r

/-- Embeds `result.isOk()` : `"data" in this.value`. -/
def Result.isOk {α ε : Type} : Result α ε → Bool
  | .Ok _ => true
  | .Err _ => false

/-- Embeds `result.isErr()` : `"error" in this.value`. -/
def Result.isErr {α ε : Type} : Result α ε → Bool
  | .Ok _ => false
  | .Err _ => true

/-- Embeds `result.map(mapFn)` (src/lib/result.ts lines 389-392):
`if (this.isErr()) return this; return Result.Ok(mapFn(this.unwrapUnsafe()))`. -/
def Result.map {α β ε : Type} (r : Result α ε) (mapFn : α → β) : Result β ε :=
  match r with
  | .Err e => .Err e
  | .Ok d => .Ok (mapFn d)

/-- Embeds `result.mapErr(mapErrFn)` (src/lib/result.ts lines 410-413). -/
def Result.mapErr {α ε φ : Type} (r : Result α ε) (mapErrFn : ε → φ) : Result α φ :=
  match r with
  | .Ok d => .Ok d
  | .Err e => .Err (mapErrFn e)

/-- Embeds `result.unwrapUnsafe()` (src/lib/result.ts lines 470-473):
returns the data of an Ok and throws the wrapped error itself on an Err. -/
def Result.unwrapUnsafe {α ε : Type} : Result α ε → Except ε α
  | .Ok d => .ok d
  | .Err e => .error e

/-- Embeds `result.unwrapErrUnsafe()` (src/lib/result.ts lines 491-494):
returns the error of an Err and throws `new ResultUnwrapErrError(data)`
on an Ok. -/
def Result.unwrapErrUnsafe {α ε : Type} : Result α ε → Except (ResultUnwrapErrError α) ε
  | .Err e => .ok e
  | .Ok d => .error ⟨d⟩

/-- Embeds `result.andThen(mapFn)` (src/lib/result.ts lines 513-516):
`if (this.isOk()) return mapFn(this.unwrapUnsafe()); return Result.Err(this.unwrapErrUnsafe())`. -/
def Result.andThen {α β ε : Type} (r : Result α ε) (mapFn : α → Result β ε) : Result β ε :=
  match r with
  | .Ok d => mapFn d
  | .Err e => .Err e

/-- Embeds `result.assert(assertFn)` (src/lib/result.ts lines 578-588, overload
without the custom `error` argument): an Err passes through unchanged, an
Ok whose data passes the predicate is returned as an Ok of the same data,
and an Ok whose data fails it becomes `Err(new AssertFailedError(data))`.
The TS return type widens the error to the union
`E | AssertFailedError<T>`, modelled by `Sum`. -/
def Result.assert {α ε : Type} (r : Result α ε) (assertFn : α → Bool) :
    Result α (ε ⊕ AssertFailedError α) :=
  match r with
  | .Err e => .Err (.inl e)
  | .Ok d => if assertFn d then .Ok d else .Err (.inr ⟨d⟩)

/-- Embeds `result.invert()` (src/lib/result.ts lines 673-676). -/
def Result.invert {α ε : Type} : Result α ε → Result ε α
  | .Ok d => .Err d
  | .Err e => .Ok e

/-- Embeds `Result.combine(...results)` (src/lib/result.ts lines 202-214):
`results.map(Result.from).reduce((acc, cur) =>
  acc.andThen(accData => cur.map(d => [...accData, d])), Result.Ok([]))`. -/
def Result.combine {α ε : Type} (results : List (Result α ε)) : Result (List α) ε :=
  (results.map Result.fromRaw).foldl
    (fun acc current => acc.andThen fun accData => current.map fun d => accData ++ [d])
    (.Ok [])

/-- The error of a result, when it is an Err. -/
def Result.errOf? {α ε : Type} : Result α ε → Option ε
  | .Err e => some e
  | .Ok _ => none

/-- The data of a result, when it is an Ok. -/
def Result.okOf? {α ε : Type} : Result α ε → Option α
  | .Ok d => some d
  | .Err _ => none

/-- Modelled from the claim's words, for comparison with `Result.combine`:
if every argument is Ok, an Ok of the data values in argument order;
otherwise an Err of the first Err argument's error in argument order
(`findSome?` returns the first hit in list order). -/
def Result.combineSpec {α ε : Type} (results : List (Result α ε)) : Result (List α) ε :=
  match results.findSome? Result.errOf? with
  | some e => .Err e
  | none => .Ok (results.filterMap Result.okOf?)

/-! ## NarrowSwitch runtime (src/lib/narrow/narrow-switch.ts).

`NarrowSwitchState<T,V> = {done: false, value: T} | {done: true, result: V}`
is `NSState`.  The chain's compile-time type parameters (`TIn`,
`TNarrowed`, `TOut`) are erased at runtime; the residual-union
computation they perform is modelled separately under `NarrowSwitchTy`. -/

inductive NSState (α β : Type) where
  | notDone : α → NSState α β
  | done : β → NSState α β
  deriving DecidableEq

structure NarrowSwitch (α β : Type) where
  state : NSState α β
  deriving DecidableEq

/-- Embeds `NarrowSwitch.switch(value)` (line 33-35): a not-done switch holding
the value. -/
def NarrowSwitch.switch {α β : Type} (value : α) : NarrowSwitch α β :=
  ⟨.notDone value⟩

/-- Embeds `narrowSwitch.case(narrowFn, mapFn)` (lines 73-82; source name
`case`, a Lean keyword):
`if (!this.state.done && narrowFn(this.state.value))
   return new NarrowSwitch({done: true, result: mapFn(this.state.value)});
 return new NarrowSwitch(this.state);`
`&&` short-circuits, so neither function runs once the state is done. -/
def NarrowSwitch.caseStep {α β : Type} (s : NarrowSwitch α β)
    (narrowFn : α → Bool) (mapFn : α → β) : NarrowSwitch α β :=
  match s.state with
  | .notDone v => if narrowFn v then ⟨.done (mapFn v)⟩ else ⟨.notDone v⟩
  | .done r => ⟨.done r⟩

/-- Embeds `_fallbackImpl(fallback)` (lines 233-237), the shared runtime body of
both `default` and `exhaust`:
`this.state.done ? this.state.result : applyValueOrMapper(fallback, this.state.value)`. -/
def NarrowSwitch.fallbackImpl {α β : Type} (s : NarrowSwitch α β)
    (fallback : ValueOrMapper α β) : β :=
  match s.state with
  | .done r => r
  | .notDone v => applyValueOrMapper fallback v

/-- Embeds `narrowSwitch.exhaustUnsafe()` (lines 228-231):
`if (this.state.done) return this.state.result; throw new NarrowError(this.state.value)`. -/
def NarrowSwitch.exhaustUnsafe {α β : Type} (s : NarrowSwitch α β) :
    Except (NarrowError α) β :=
  match s.state with
  | .done r => .ok r
  | .notDone v => .error ⟨v⟩

/-! ### Traced variants

User-supplied predicates and mapping functions may perform effects; to
reason about which of them are invoked (and in which order), the traced
variants take callbacks in explicit state-passing style
(`α → σ → β × σ`) and mirror the source's evaluation order. -/

/-- One call event of an instrumented narrowing chain: evaluation of the
`i`-th case's predicate, or of the `i`-th case's mapping function. -/
inductive CallEv where
  | pred : Nat → CallEv
  | mapf : Nat → CallEv
  deriving DecidableEq

/-- Embeds `case` in explicit state-passing style: evaluates `narrowFn` (unless
the state is already done) and then, on a match, `mapFn`, threading the
caller's state `σ` through in the source's evaluation order. -/
def NarrowSwitch.caseTraced {α β σ : Type} (s : NarrowSwitch α β)
    (narrowFn : α → σ → Bool × σ) (mapFn : α → σ → β × σ) (st : σ) :
    NarrowSwitch α β × σ :=
  match s.state with
  | .done r => (⟨.done r⟩, st)
  | .notDone v =>
    let pr := narrowFn v st
    if pr.1 then
      let mr := mapFn v pr.2
      (⟨.done mr.1⟩, mr.2)
    else (⟨.notDone v⟩, pr.2)

/-- Instrument a pure predicate to log `CallEv.pred i` each time it runs. -/
def instrPred {α : Type} (i : Nat) (p : α → Bool) :
    α → List CallEv → Bool × List CallEv :=
  fun a log => (p a, log ++ [CallEv.pred i])

/-- Instrument a pure mapping function to log `CallEv.mapf i` each time
it runs. -/
def instrMap {α β : Type} (i : Nat) (f : α → β) :
    α → List CallEv → β × List CallEv :=
  fun a log => (f a, log ++ [CallEv.mapf i])

/-- The three-case narrowing chain of the spec's example
(`switch(v).case(p1, f1).case(p2, f2).case(p3, f3)`), with every
predicate and mapping function instrumented to log its own invocations. -/
def NarrowSwitch.chain3Traced {α β : Type} (v : α)
    (p1 p2 p3 : α → Bool) (f1 f2 f3 : α → β) :
    NarrowSwitch α β × List CallEv :=
  let r1 := NarrowSwitch.caseTraced (NarrowSwitch.switch v)
    (instrPred 1 p1) (instrMap 1 f1) []
  let r2 := NarrowSwitch.caseTraced r1.1 (instrPred 2 p2) (instrMap 2 f2) r1.2
  NarrowSwitch.caseTraced r2.1 (instrPred 3 p3) (instrMap 3 f3) r2.2

/-- Embeds `result.map(mapFn)` in explicit state-passing style, mirroring the
source body of src/lib/result.ts lines 389-392. -/
def Result.mapTraced {α β ε σ : Type} (r : Result α ε)
    (mapFn : α → σ → β × σ) (st : σ) : Result β ε × σ :=
  match r with
  | .Err e => (.Err e, st)
  | .Ok d =>
    let mr := mapFn d st
    (.Ok mr.1, mr.2)

/-- Embeds `maybe.mapOr(defaultValue, mapFn)` in explicit state-passing style
(only `mapFn` is instrumented; the default is a plain `ValueOrFnOnce`). -/
def Maybe.mapOrTraced {α β σ : Type} (m : Maybe α) (defaultValue : ValueOrFnOnce β)
    (mapFn : α → σ → β × σ) (st : σ) : β × σ :=
  match m.value with
  | .val a => mapFn a st
  | .null => (applyValueOrFnOnce defaultValue, st)
  | .undef => (applyValueOrFnOnce defaultValue, st)

/-! ### A dynamically-typed fragment

In JavaScript the `typeof x === "function"` dispatch inside
`applyValueOrFnOnce` looks at the runtime value, not at the TS type; a
function passed as the "plain value" branch of `ValueOrFnOnce<U>` (when
`U` is itself a function type) is therefore *called* rather than
returned.  `JSDyn` is a small universe of untyped JS values on which this
dispatch can be modelled exactly. -/

inductive JSDyn where
  | num : Int → JSDyn
  | fn : (Unit → JSDyn) → JSDyn

/-- Embeds `applyValueOrFnOnce` on a dynamic value:
`typeof v === "function" ? v() : v`. -/
def applyValueOrFnOnceDyn : JSDyn → JSDyn
  | .fn g => g ()
  | v => v

/-- Embeds `maybe.mapOr(defaultValue, mapFn)` on dynamic values (same body as
`Maybe.mapOr`, with the runtime `typeof` dispatch for the default). -/
def Maybe.mapOrDyn (m : Maybe JSDyn) (defaultValue : JSDyn)
    (mapFn : JSDyn → JSDyn) : JSDyn :=
  match m.value with
  | .val a => mapFn a
  | .null => applyValueOrFnOnceDyn defaultValue
  | .undef => applyValueOrFnOnceDyn defaultValue

/-! ## NarrowSwitch compile-time residual computation
(src/lib/narrow/narrow-switch.ts, type level).

`TNarrowed` is a union of variants, modelled as the list of its variant
tags; the empty list is `never`.  `Exclude<TNarrowed, U>` for a
single-variant `U` removes that variant's tag, and
`IsNever<TValue, TTrue, TFalse> = [TValue] extends [never] ? TTrue : TFalse`
(line 240) selects the published signature of each terminal method. -/

/-- The signature a terminal member is published at: a callable function
type, or `never` (not callable: a compile error at any call site). -/
inductive SigTy where
  | callable : SigTy
  | never : SigTy
  deriving DecidableEq

/-- Embeds `IsNever<TValue, TTrue, TFalse>` (line 240) over a residual union
represented by its list of variant tags. -/
def NarrowSwitchTy.IsNever {V : Type} (tNarrowed : List V) (tTrue tFalse : SigTy) : SigTy :=
  if tNarrowed.isEmpty then tTrue else tFalse

/-- The published type of `default` (lines 126-130):
`IsNever<TNarrowed, never, (fallback) => TOut | V>`. -/
def NarrowSwitchTy.defaultTy {V : Type} (tNarrowed : List V) : SigTy :=
  NarrowSwitchTy.IsNever tNarrowed .never .callable

/-- The published type of `exhaust` (lines 180-184):
`IsNever<TNarrowed, (fallback) => TOut | V, never>`. -/
def NarrowSwitchTy.exhaustTy {V : Type} (tNarrowed : List V) : SigTy :=
  NarrowSwitchTy.IsNever tNarrowed .callable .never

/-- The published type of `exhaustUnsafe` (line 228):
`IsNever<TNarrowed, () => TOut, never>`. -/
def NarrowSwitchTy.exhaustUnsafeTy {V : Type} (tNarrowed : List V) : SigTy :=
  NarrowSwitchTy.IsNever tNarrowed .callable .never

/-- Embeds `Exclude<TNarrowed, U>` for a case matching the single variant `u`
(the return type of `case`, line 76): the residual union without that
variant. -/
def NarrowSwitchTy.exclude {V : Type} [DecidableEq V] (tNarrowed : List V) (u : V) :
    List V :=
  tNarrowed.filter (fun t => t ≠ u)

/-! ## NarrowDiscriminate (src/src/narrow/narrow-discriminate.ts).

The instance stores the value and the discriminator; the property access
`value[discriminator]` is modelled by a key-extraction function, and the
matcher object by a partial map from discriminator tags to mapping
functions (`none` models an absent or nullish entry, which the source's
`mapObj[key] ?? fallback` replaces by the fallback). -/

structure NarrowDiscriminate (T K : Type) where
  value : T
  discriminator : T → K

/-- Embeds `NarrowDiscriminate.discriminate(value, discriminator)` (lines 74-79). -/
def NarrowDiscriminate.discriminate {T K : Type} (value : T) (discriminator : T → K) :
    NarrowDiscriminate T K :=
  ⟨value, discriminator⟩

/-- Embeds `narrowDiscriminate.match(mapObj, fallback)` (lines 90-93; source
name `match`, a Lean keyword):
`const key = this.value[this.discriminator];
 return (mapObj[key] ?? fallback)(this.value);`. -/
def NarrowDiscriminate.matchFn {T K V : Type} (d : NarrowDiscriminate T K)
    (mapObj : K → Option (T → V)) (fallback : T → V) : V :=
  match mapObj (d.discriminator d.value) with
  | some f => f d.value
  | none => fallback d.value

/-- Embeds `match` in explicit state-passing style: the selected function (a
matcher entry or the fallback) is the only one evaluated, on the whole
stored value. -/
def NarrowDiscriminate.matchTraced {T K V σ : Type} (d : NarrowDiscriminate T K)
    (mapObj : K → Option (T → σ → V × σ)) (fallback : T → σ → V × σ) (st : σ) :
    V × σ :=
  match mapObj (d.discriminator d.value) with
  | some f => f d.value st
  | none => fallback d.value st

/-! ## Remaining helper definitions for the theorems -/

/-- Whether an embedded call threw (is in the `Except.error` branch). -/
def Except.isThrow {ε α : Type} : Except ε α → Bool
  | .error _ => true
  | .ok _ => false

/-- A concrete three-variant union (the spec example's
`User | Admin | Guest`), used to instantiate the narrowing-chain
theorems. -/
inductive Role where
  | user : Role
  | admin : Role
  | guest : Role
  deriving DecidableEq

/-! ## Theorems -/

/-- Folding the combine step over any tail keeps an already-erred
accumulator: `andThen` on an Err returns the Err unchanged. -/
theorem Result.foldl_combine_err {α ε : Type} (rs : List (Result α ε)) (e : ε) :
    rs.foldl
      (fun (acc : Result (List α) ε) (current : Result α ε) =>
        acc.andThen fun accData => current.map fun d => accData ++ [d])
      (.Err e) = .Err e := by
  induction rs with
  | nil => rfl
  | cons r rs ih =>
    have hstep : ((Result.Err e : Result (List α) ε).andThen fun accData =>
        r.map fun d => accData ++ [d]) = .Err e := rfl
    rw [List.foldl_cons, hstep, ih]

/-- Folding the combine step from an Ok accumulator: the first Err in
order wins, otherwise the data values are appended in order. -/
theorem Result.foldl_combine_ok {α ε : Type} (rs : List (Result α ε)) (acc : List α) :
    rs.foldl
      (fun (acc : Result (List α) ε) (current : Result α ε) =>
        acc.andThen fun accData => current.map fun d => accData ++ [d])
      (.Ok acc) =
      (match rs.findSome? Result.errOf? with
       | some e => .Err e
       | none => .Ok (acc ++ rs.filterMap Result.okOf?)) := by
  induction rs generalizing acc with
  | nil => simp
  | cons r rs ih =>
    cases r with
    | Ok d =>
      have hstep : ((Result.Ok acc : Result (List α) ε).andThen fun accData =>
          (Result.Ok (ε := ε) d).map fun d => accData ++ [d]) = .Ok (acc ++ [d]) := rfl
      rw [List.foldl_cons, hstep, ih (acc ++ [d]), List.findSome?_cons]
      have herr : Result.errOf? (Result.Ok (ε := ε) d) = none := rfl
      rw [herr, List.filterMap_cons]
      have hok : Result.okOf? (Result.Ok (ε := ε) d) = some d := rfl
      rw [hok]
      cases rs.findSome? Result.errOf? <;> simp
    | Err e =>
      have hstep : ((Result.Ok acc : Result (List α) ε).andThen fun accData =>
          (Result.Err (α := α) e).map fun d => accData ++ [d]) = .Err e := rfl
      rw [List.foldl_cons, hstep, Result.foldl_combine_err, List.findSome?_cons]
      rfl

/-- C3: `Result.combine` is Ok of the data values in argument order when
every argument is Ok, and otherwise Err of the first Err argument's
error in argument order (the behaviour spelled out by
`Result.combineSpec`). -/
theorem result_combine_first_error_wins {α ε : Type} (results : List (Result α ε)) :
    Result.combine results = Result.combineSpec results := by
  have hmap : results.map Result.fromRaw = results := by
    induction results with
    | nil => rfl
    | cons r rs ih => rw [List.map_cons, ih]; rfl
  unfold Result.combine Result.combineSpec
  rw [hmap, Result.foldl_combine_ok]
  cases results.findSome? Result.errOf? <;> simp

/-- C1: in a three-case narrowing chain whose predicates cover the input,
exactly one mapping function is invoked per input — the one paired with
the first predicate that returns true — and once a case has matched, no
later case's predicate or mapping function is executed: the call log
contains the predicates up to and including the first match, then that
case's mapping call, and nothing else; the chain's result is that
mapping function's output.  The final conjunct states the short-circuit
in general: a `case` step on an already-done switch evaluates neither of
its callbacks and leaves the log untouched. -/
theorem narrowSwitch_three_case_first_match {α β : Type} (v : α)
    (p1 p2 p3 : α → Bool) (f1 f2 f3 : α → β)
    (hcov : p1 v = true ∨ p2 v = true ∨ p3 v = true) :
    NarrowSwitch.chain3Traced v p1 p2 p3 f1 f2 f3 =
      (if p1 v = true then (⟨.done (f1 v)⟩, [.pred 1, .mapf 1])
       else if p2 v = true then (⟨.done (f2 v)⟩, [.pred 1, .pred 2, .mapf 2])
       else (⟨.done (f3 v)⟩, [.pred 1, .pred 2, .pred 3, .mapf 3])) ∧
    (∀ (r : β) (nf : α → List CallEv → Bool × List CallEv)
       (mf : α → List CallEv → β × List CallEv) (log : List CallEv),
       NarrowSwitch.caseTraced ⟨NSState.done r⟩ nf mf log = (⟨NSState.done r⟩, log)) := by
  constructor
  · cases hp1 : p1 v <;> cases hp2 : p2 v <;> cases hp3 : p3 v <;>
      simp_all [NarrowSwitch.chain3Traced, NarrowSwitch.caseTraced,
        NarrowSwitch.switch, instrPred, instrMap]
  · intro r nf mf log
    rfl

/-- Witness for C1: the spec's three-variant example at a concrete input.
The admin input fails the user case, matches the admin case, and the
guest case is never consulted. -/
theorem narrowSwitch_three_case_first_match_witness :
    NarrowSwitch.chain3Traced Role.admin
      (fun r => r == Role.user) (fun r => r == Role.admin) (fun r => r == Role.guest)
      (fun _ => (1 : Nat)) (fun _ => 2) (fun _ => 3) =
      (⟨NSState.done 2⟩, [CallEv.pred 1, CallEv.pred 2, CallEv.mapf 2]) := by
  have h := (narrowSwitch_three_case_first_match Role.admin
    (fun r => r == Role.user) (fun r => r == Role.admin) (fun r => r == Role.guest)
    (fun _ => (1 : Nat)) (fun _ => 2) (fun _ => 3)
    (Or.inr (Or.inl (by decide)))).1
  simpa using h

/-- Membership after one `Exclude` step. -/
theorem NarrowSwitchTy.mem_exclude {V : Type} [DecidableEq V]
    (tn : List V) (u x : V) :
    x ∈ NarrowSwitchTy.exclude tn u ↔ x ∈ tn ∧ x ≠ u := by
  simp [NarrowSwitchTy.exclude]

/-- Membership after folding `Exclude` over a list of matched variants. -/
theorem NarrowSwitchTy.mem_foldl_exclude {V : Type} [DecidableEq V]
    (l : List V) (acc : List V) (x : V) :
    x ∈ List.foldl NarrowSwitchTy.exclude acc l ↔ x ∈ acc ∧ x ∉ l := by
  induction l generalizing acc with
  | nil => simp
  | cons u l ih =>
    rw [List.foldl_cons, ih, NarrowSwitchTy.mem_exclude]
    simp only [List.mem_cons]
    tauto

/-- C2: the terminal operations' availability is the residual union's
emptiness, computed by the source's `IsNever` conditional type:
`default` is callable exactly while the residual union is non-empty (and
is published at type `never` — a compile error at any call site — once
it is empty), while `exhaust` and `exhaustUnsafe` are callable exactly
once the residual union is empty.  A `case` step's `Exclude` removes the
matched variant from the residual union, and after every variant of the
starting union has been matched by some case, the residual is empty and
`exhaust` becomes callable. -/
theorem narrowSwitch_terminal_gating {V : Type} [DecidableEq V]
    (tn : List V) (u x : V) :
    (NarrowSwitchTy.defaultTy tn = SigTy.callable ↔ tn ≠ []) ∧
    (NarrowSwitchTy.defaultTy tn = SigTy.never ↔ tn = []) ∧
    (NarrowSwitchTy.exhaustTy tn = SigTy.callable ↔ tn = []) ∧
    (NarrowSwitchTy.exhaustTy tn = SigTy.never ↔ tn ≠ []) ∧
    (NarrowSwitchTy.exhaustUnsafeTy tn = SigTy.callable ↔ tn = []) ∧
    (NarrowSwitchTy.exhaustUnsafeTy tn = SigTy.never ↔ tn ≠ []) ∧
    (x ∈ NarrowSwitchTy.exclude tn u ↔ x ∈ tn ∧ x ≠ u) ∧
    NarrowSwitchTy.exhaustTy (List.foldl NarrowSwitchTy.exclude tn tn) = SigTy.callable := by
  have hempty : List.foldl NarrowSwitchTy.exclude tn tn = [] := by
    rw [List.eq_nil_iff_forall_not_mem]
    intro y hy
    rw [NarrowSwitchTy.mem_foldl_exclude] at hy
    exact hy.2 hy.1
  refine ⟨?_, ?_, ?_, ?_, ?_, ?_, NarrowSwitchTy.mem_exclude tn u x, ?_⟩ <;>
    first
      | (rw [hempty]; rfl)
      | (cases tn <;>
          simp [NarrowSwitchTy.defaultTy, NarrowSwitchTy.exhaustTy,
            NarrowSwitchTy.exhaustUnsafeTy, NarrowSwitchTy.IsNever])

/-- C4: the unsafe unwrap (`unwrap()` in src/src/maybe.ts,
`unwrapUnsafe()` in src/lib/maybe.ts) returns the wrapped value of a
non-empty Maybe, throws `MissingValueError` on an empty Maybe — whether
built by `None` or holding a raw `null` or `undefined` slot — and throws
exactly when the slot is nullish (so in no other case). -/
theorem maybe_unwrapUnsafe_spec {α : Type} (x : α) (m : Maybe α) :
    Maybe.unwrapUnsafe (Maybe.Some x) = Except.ok x ∧
    Maybe.unwrapUnsafe (⟨JsVal.val x⟩ : Maybe α) = Except.ok x ∧
    Maybe.unwrapUnsafe (Maybe.None (α := α)) = Except.error MissingValueError.make ∧
    Maybe.unwrapUnsafe (⟨JsVal.null⟩ : Maybe α) = Except.error MissingValueError.make ∧
    Maybe.unwrapUnsafe (⟨JsVal.undef⟩ : Maybe α) = Except.error MissingValueError.make ∧
    Except.isThrow (Maybe.unwrapUnsafe m) = m.value.looseNull := by
  refine ⟨rfl, rfl, rfl, rfl, rfl, ?_⟩
  cases hv : m.value <;> simp [Maybe.unwrapUnsafe, Except.isThrow, JsVal.looseNull, hv]

/-- C5 counterexample: two concrete inputs refute the claim.  First, on
the empty Maybe `Maybe.None` the unsafe unwrap throws
`MissingValueError`, whose class (src/lib/errors.ts lines 1-5) has a
parameterless constructor and no `value` field: the thrown error is the
fixed record holding only the constant message, so — unlike
`NarrowError`, `AssertFailedError` and `ResultUnwrapErrError` — it does
not carry the offending value.  Second, the explicitly-named unsafe
accessor `unwrapUnsafe` (src/lib/result.ts lines 470-473,
`throw this.value.error`) on the concrete Err wrapping the string
"boom" throws that wrapped user value itself — the thrown value has the
caller's error type `String`, not a dedicated error type — so both
"every explicitly-named unsafe accessor … throw[s] dedicated error
types carrying the offending value" and "all other failures are modeled
as Result/Maybe values, not thrown" fail on the code. -/
theorem unsafe_accessor_dedicated_error_cex :
    Maybe.unwrapUnsafe (Maybe.None (α := Int)) = Except.error MissingValueError.make ∧
    MissingValueError.make = { message := "Unwrapped a Maybe with no value" } ∧
    Result.unwrapUnsafe (Result.Err (α := Int) "boom") = Except.error "boom" :=
  ⟨rfl, rfl, rfl⟩

/-- C5 (amended): the explicitly-named unsafe accessors fail by
throwing, as follows — `unwrapErrUnsafe` on an Ok throws
`ResultUnwrapErrError` carrying the Ok data, `exhaustUnsafe` on a
runtime narrowing miss throws `NarrowError` carrying the unmatched
value, the unsafe Maybe unwrap on an empty Maybe throws
`MissingValueError` (which carries only its fixed message, no value),
and `Result.unwrapUnsafe` on an Err throws the wrapped error value `E`
itself rather than a dedicated error type (its embedding returns
`Except ε α`, the error being the user's `e`) — while on the happy path
none of them throws; a non-unsafe failure such as a failed `assert` is
returned as an Err value, not thrown. -/
theorem unsafe_accessors_failure_modes {α β γ ε : Type}
    (d : α) (e : ε) (v : γ) (r : β) (x : α) :
    Result.unwrapErrUnsafe (Result.Ok (ε := ε) d) =
      Except.error (ResultUnwrapErrError.mk d) ∧
    Result.unwrapErrUnsafe (Result.Err (α := α) e) = Except.ok e ∧
    NarrowSwitch.exhaustUnsafe (⟨NSState.notDone v⟩ : NarrowSwitch γ β) =
      Except.error (NarrowError.mk v) ∧
    NarrowSwitch.exhaustUnsafe (⟨NSState.done r⟩ : NarrowSwitch γ β) = Except.ok r ∧
    Maybe.unwrapUnsafe (Maybe.None (α := α)) = Except.error MissingValueError.make ∧
    Maybe.unwrapUnsafe (Maybe.Some x) = Except.ok x ∧
    Result.unwrapUnsafe (Result.Err (α := α) e) = Except.error e ∧
    Result.unwrapUnsafe (Result.Ok (ε := ε) d) = Except.ok d ∧
    Result.assert (Result.Ok (ε := ε) d) (fun _ => false) =
      Result.Err (Sum.inr (AssertFailedError.mk d)) :=
  ⟨rfl, rfl, rfl, rfl, rfl, rfl, rfl, rfl, rfl⟩

/-- C6: `assert` with no custom error argument turns an Ok whose data
fails the predicate into an Err wrapping `AssertFailedError` carrying
that data, keeps an Ok whose data passes the predicate as an Ok of the
same data, and passes an existing Err through with its original error. -/
theorem result_assert_spec {α ε : Type} (d : α) (e : ε) (p : α → Bool) :
    Result.assert (Result.Ok (ε := ε) d) p =
      (if p d = true then Result.Ok d else Result.Err (Sum.inr (AssertFailedError.mk d))) ∧
    Result.assert (Result.Err (α := α) e) p = Result.Err (Sum.inl e) ∧
    Result.assert (Result.Ok (ε := ε) d) (fun _ => true) = Result.Ok d ∧
    Result.assert (Result.Ok (ε := ε) d) (fun _ => false) =
      Result.Err (Sum.inr (AssertFailedError.mk d)) := by
  refine ⟨?_, rfl, rfl, rfl⟩
  cases hp : p d <;> simp [Result.assert, hp]

/-- C9: mapping an Ok applies the function to the data exactly once (the
traced run's log is the one-element list of that data) and the unsafe
unwrap of the resulting Ok returns the mapped value without throwing. -/
theorem result_ok_map_unwrapUnsafe {α β ε : Type} (x : α) (f : α → β) :
    Result.unwrapUnsafe (Result.map (Result.Ok (ε := ε) x) f) = Except.ok (f x) ∧
    Result.map (Result.Ok (ε := ε) x) f = Result.Ok (f x) ∧
    Result.mapTraced (Result.Ok (ε := ε) x) (fun a s => (f a, s ++ [a])) ([] : List α) =
      (Result.Ok (f x), [x]) :=
  ⟨rfl, rfl, rfl⟩

/-- C8 counterexample: at the concrete input `Maybe.None` with the
default `d = () => 42` (a JS function value) and identity mapping
function, `mapOr` returns `42` — the result of *calling* the default,
because `applyValueOrFnOnce` dispatches on `typeof d === "function"` —
and not `d` itself, refuting "for every default value d,
`Maybe.None().mapOr(d, f) === d`". -/
theorem maybe_mapOr_function_default_cex :
    Maybe.mapOrDyn Maybe.None (JSDyn.fn fun _ => JSDyn.num 42) (fun a => a) =
      JSDyn.num 42 ∧
    Maybe.mapOrDyn Maybe.None (JSDyn.fn fun _ => JSDyn.num 42) (fun a => a) ≠
      JSDyn.fn (fun _ => JSDyn.num 42) :=
  ⟨rfl, fun h => JSDyn.noConfusion h⟩

/-- C8 (amended): on an empty Maybe, `mapOr` returns the default — the
default itself when it is not a function, and the result of invoking it
once when it is — and the mapping function is never invoked: the traced
run returns the caller's log unchanged whatever the instrumented mapping
function is. -/
theorem maybe_mapOr_none_default_spec {α β σ : Type} (d : β) (g : Unit → β)
    (f : α → β) (fT : α → σ → β × σ) (dv : ValueOrFnOnce β) (st : σ) :
    Maybe.mapOr (Maybe.None (α := α)) (ValueOrFnOnce.value d) f = d ∧
    Maybe.mapOr (Maybe.None (α := α)) (ValueOrFnOnce.fnOnce g) f = g () ∧
    Maybe.mapOrTraced (Maybe.None (α := α)) dv fT st = (applyValueOrFnOnce dv, st) :=
  ⟨rfl, rfl, rfl⟩

/-- C10: `discriminate(v, k).match(m, fb)` reads the discriminator value
`v[k]` once and applies `m[v[k]]` to the whole value `v` when the
matcher has a (non-nullish) entry at that key, and the fallback to `v`
otherwise; the traced run shows that exactly one of the functions is
invoked, on the whole value (`some`-tagged event for a matcher entry,
`none`-tagged for the fallback). -/
theorem narrowDiscriminate_match_spec {T K V : Type} (v : T) (k : T → K)
    (mapObj : K → Option (T → V)) (fb : T → V) :
    (NarrowDiscriminate.discriminate v k).matchFn mapObj fb =
      (match mapObj (k v) with
       | some g => g v
       | none => fb v) ∧
    (NarrowDiscriminate.discriminate v k).matchTraced
        (fun t => (mapObj t).map fun g a s => (g a, s ++ [(some t, a)]))
        (fun a s => (fb a, s ++ [(none, a)]))
        ([] : List (Option K × T)) =
      (match mapObj (k v) with
       | some g => (g v, [(some (k v), v)])
       | none => (fb v, [(none, v)])) := by
  constructor
  · cases h : mapObj (k v) <;>
      simp [NarrowDiscriminate.matchFn, NarrowDiscriminate.discriminate, h]
  · cases h : mapObj (k v) <;>
      simp [NarrowDiscriminate.matchTraced, NarrowDiscriminate.discriminate, h]

/-- The constructor's `?? null` normalisation never stores `undefined`. -/
theorem JsVal.coalesceNull_ne_undef {α : Type} (v : JsVal α) :
    v.coalesceNull ≠ JsVal.undef := by
  cases v <;> simp [JsVal.coalesceNull]

/-- Every constructed Maybe satisfies the internal-slot invariant. -/
theorem Maybe.WF_mkNorm {α : Type} (v : JsVal α) : (Maybe.mkNorm v).WF := by
  exact JsVal.coalesceNull_ne_undef v

theorem Maybe.WF_Some {α : Type} (x : α) : (Maybe.Some x).WF := by
  exact Maybe.WF_mkNorm (JsVal.val x)

theorem Maybe.WF_None {α : Type} : (Maybe.None (α := α)).WF := by
  exact Maybe.WF_mkNorm JsVal.null

theorem Maybe.WF_fromArg_raw {α : Type} (v : JsVal α) :
    (Maybe.fromArg (Maybe.FromArg.raw v)).WF := by
  exact Maybe.WF_mkNorm v

/-- Embeds `Maybe.from` preserves the internal-slot invariant: a raw argument is
normalised by the constructor, an instance argument is returned as-is. -/
theorem Maybe.fromArg_WF {α : Type} (u : Maybe.FromArg α) (h : Maybe.WFArg u) :
    (Maybe.fromArg u).WF := by
  cases u with
  | raw v => exact Maybe.WF_fromArg_raw v
  | inst m => exact h

/-- C7: every public Maybe constructor and transformation stores a
non-null value or `null` in the internal slot, never `undefined` —
`undefined` inputs are normalised to `null` by the constructor (the
sixth conjunct), and operations that can receive an existing Maybe
(`from`, `andThen`'s callback result, `orElse`'s fallback, `try`'s
return) preserve the invariant.  Immutability is intrinsic to the
embedding: every operation returns a new `Maybe` value and the source
field is `readonly`, with no method assigning to it. -/
theorem maybe_stores_normalized_nonundef {α β : Type} (x : α) (v : JsVal α)
    (m : Maybe α) (f : α → β) (k : α → Maybe.FromArg β)
    (d : ValueOrFnOnce (Maybe.FromArg α)) (p : α → Bool)
    (wfn : Unit → Except Unit (Maybe.FromArg α))
    (ms : List (Maybe.FromArg α))
    (hm : m.WF)
    (hk : ∀ a, Maybe.WFArg (k a))
    (hd : Maybe.WFArg (applyValueOrFnOnce d))
    (hw : ∀ u, wfn () = Except.ok u → Maybe.WFArg u) :
    (Maybe.Some x).WF ∧
    (Maybe.None (α := α)).WF ∧
    (Maybe.mkNorm v).WF ∧
    (Maybe.fromArg (Maybe.FromArg.raw v)).WF ∧
    (Maybe.fromArg (Maybe.FromArg.inst m)).WF ∧
    Maybe.fromArg (Maybe.FromArg.raw (JsVal.undef (α := α))) =
      Maybe.fromArg (Maybe.FromArg.raw (JsVal.null (α := α))) ∧
    (Maybe.map m f).WF ∧
    (Maybe.andThen m k).WF ∧
    (Maybe.narrow m p).WF ∧
    (Maybe.narrowStatic (Maybe.FromArg.raw v) p).WF ∧
    (Maybe.orElse m d).WF ∧
    (Maybe.tryFn wfn).WF ∧
    (Maybe.combine ms).WF := by
  refine ⟨Maybe.WF_Some x, Maybe.WF_None, Maybe.WF_mkNorm v, Maybe.WF_fromArg_raw v,
    ?_, rfl, ?_, ?_, ?_, ?_, ?_, ?_, ?_⟩
  · exact hm
  · cases hv : m.value <;> simp only [Maybe.map, hv] <;> exact Maybe.WF_fromArg_raw _
  · cases hv : m.value with
    | val a =>
      simp only [Maybe.andThen, hv]
      exact Maybe.fromArg_WF _ (hk a)
    | null => simp only [Maybe.andThen, hv]; exact Maybe.WF_None
    | undef => simp only [Maybe.andThen, hv]; exact Maybe.WF_None
  · cases hv : m.value with
    | val a =>
      simp only [Maybe.narrow, Maybe.andThen, hv]
      refine Maybe.fromArg_WF _ ?_
      cases hpa : p a <;> simp only [hpa, Maybe.WFArg, if_true, if_false,
        Bool.false_eq_true, ite_false, ite_true]
      · exact Maybe.WF_None
      · exact Maybe.WF_Some a
    | null => simp only [Maybe.narrow, Maybe.andThen, hv]; exact Maybe.WF_None
    | undef => simp only [Maybe.narrow, Maybe.andThen, hv]; exact Maybe.WF_None
  · cases hv : (Maybe.fromArg (Maybe.FromArg.raw v)).value with
    | val a =>
      simp only [Maybe.narrowStatic, Maybe.narrow, Maybe.andThen, hv]
      refine Maybe.fromArg_WF _ ?_
      cases hpa : p a <;> simp only [hpa, Maybe.WFArg, if_true, if_false,
        Bool.false_eq_true, ite_false, ite_true]
      · exact Maybe.WF_None
      · exact Maybe.WF_Some a
    | null =>
      simp only [Maybe.narrowStatic, Maybe.narrow, Maybe.andThen, hv]
      exact Maybe.WF_None
    | undef =>
      simp only [Maybe.narrowStatic, Maybe.narrow, Maybe.andThen, hv]
      exact Maybe.WF_None
  · cases hv : m.value with
    | val a => simp only [Maybe.orElse, hv]; exact Maybe.WF_fromArg_raw _
    | null => simp only [Maybe.orElse, hv]; exact Maybe.fromArg_WF _ hd
    | undef => simp only [Maybe.orElse, hv]; exact Maybe.fromArg_WF _ hd
  · cases hr : wfn () with
    | ok u => simp only [Maybe.tryFn, hr]; exact Maybe.fromArg_WF _ (hw u hr)
    | error e => simp only [Maybe.tryFn, hr]; exact Maybe.WF_None
  · unfold Maybe.combine
    dsimp only
    split
    · exact Maybe.WF_fromArg_raw _
    · exact Maybe.WF_fromArg_raw _

/-- Witness for C7: chaining `andThen` with a callback that returns a
Maybe instance preserves the invariant at a concrete input. -/
theorem maybe_stores_normalized_nonundef_witness :
    (Maybe.andThen (Maybe.Some (5 : Int))
      (fun a => Maybe.FromArg.inst (Maybe.Some a))).WF := by
  exact (maybe_stores_normalized_nonundef 5 (JsVal.val 7) (Maybe.Some 5)
    (fun a => a + 1) (fun a => Maybe.FromArg.inst (Maybe.Some a))
    (ValueOrFnOnce.value (Maybe.FromArg.raw JsVal.null)) (fun _ => true)
    (fun _ => Except.ok (Maybe.FromArg.raw (JsVal.val 3)))
    [Maybe.FromArg.raw (JsVal.val 1)]
    (Maybe.WF_Some 5)
    (fun a => Maybe.WF_Some a)
    trivial
    (fun u h => by cases h; trivial)).2.2.2.2.2.2.2.1
